/-
Verification of `hexrd/imageseries/save.py` (imageseries writers).

Shallow embedding of the module: the format registry, the dispatch entry
point `write`, the dense HDF5 writer (`WriteH5`) and the sparse
frame-cache writer (`WriteFrameCache`), translated from the Python
source.  Machine integers are modelled with `Nat`/`Int`; Python dicts
are modelled as insertion-ordered association lists with
overwrite-in-place semantics; file side effects are modelled as values
describing what would be written.  Fallible dict accesses (Python
`KeyError`, a subclass of `LookupError`) are modelled with `Except`.
-/
import Mathlib

namespace HexrdSave

/-! ## Python dict model

A Python `dict` keeps insertion order; `d[k] = v` overwrites the value
in place when `k` is present, else appends a new entry; `d[k]` raises
`KeyError` when `k` is absent. -/

/-- Python dict assignment `d[k] = v`: overwrite in place, else append. -/
def dictSet {κ α : Type} [DecidableEq κ] : List (κ × α) → κ → α → List (κ × α)
  | [], k, v => [(k, v)]
  | (k0, v0) :: rest, k, v =>
      if k0 = k then (k, v) :: rest else (k0, v0) :: dictSet rest k v

/-- Successful `d[k]` lookup on a Python dict (`none` models `KeyError`). -/
def lookupD {κ α : Type} [DecidableEq κ] : List (κ × α) → κ → Option α
  | [], _ => none
  | (k0, v0) :: rest, k => if k0 = k then some v0 else lookupD rest k

/-- Python errors raised by code paths of this module:
`KeyError` (a `LookupError`) from a dict access of a missing key. -/
inductive PyError where
  | keyError : String → PyError
deriving DecidableEq, Repr

/-! ## Data model

A frame is a 2-D numeric array, modelled row-major as a list of rows of
`Int` pixel values.  An image series (external collaborator) exposes
frames, shape, dtype (name and item size in bytes) and a metadata
mapping. -/

abbrev Frame := List (List Int)

/-- A metadata value: scalar, string, or numpy array (`np.ndarray`). -/
inductive MetaVal where
  | int : Int → MetaVal
  | str : String → MetaVal
  | arr : List Int → MetaVal
deriving DecidableEq, Repr

/-- A value in the processed-metadata dict written to the YAML
descriptor: scalars and strings pass through; arrays appear as their
`tolist()` form. -/
inductive MetaOut where
  | int : Int → MetaOut
  | str : String → MetaOut
  | list : List Int → MetaOut
deriving DecidableEq, Repr

/-- The imageseries collaborator contract: `len(ims)`, `ims.shape`,
`ims.dtype`, `ims[i]`, `ims.metadata`. -/
structure ImageSeries where
  frames : List Frame
  shape : Nat × Nat
  dtypeName : String
  /-- Bytes per pixel, `np.dtype(...).itemsize`. -/
  itemsize : Nat
  metadata : List (String × MetaVal)
deriving DecidableEq, Repr

/-- A keyword-argument value (`**kwargs`): the options used by these
writers are strings (`path`, `cache_file`) and numbers (`threshold`). -/
inductive OptVal where
  | vs : String → OptVal
  | vi : Int → OptVal
deriving DecidableEq, Repr

abbrev Opts := List (String × OptVal)

/-! ## Registry (`_Registry`)

`register(wcls)` skips the abstract base class by name (the source
compares `wcls.__name__ is not "Writer"` by identity; CPython interns
both strings,
so this behaves as string inequality) and otherwise stores `wcls` under
key `wcls.fmt`.  `Writer.fmt` is `None`, so registry keys are
`Option String`.  `getwriter(name)` is a plain dict access. -/

/-- What the registry sees of a writer class: its `__name__` and its
declared `fmt` attribute. -/
structure WCls where
  name : String
  fmt : Option String
deriving DecidableEq, Repr

/-- Model of `_Registry.register`: skip the class named `Writer`, else
`writer_registry[wcls.fmt] = wcls`. -/
def registryRegister (reg : List (Option String × WCls)) (wcls : WCls) :
    List (Option String × WCls) :=
  if wcls.name = "Writer" then reg else dictSet reg wcls.fmt wcls

/-- Model of `_Registry.getwriter`: `writer_registry[name]`, `KeyError` when
absent. -/
def getwriterE (reg : List (Option String × WCls)) (name : String) :
    Except PyError WCls :=
  match lookupD reg (some name) with
  | none => .error (.keyError name)
  | some w => .ok w

/-- The `Writer` base class as seen by the registry metaclass. -/
def writerCls : WCls := ⟨"Writer", none⟩

/-- The `WriteH5` class: `fmt` is the string `hdf5`. -/
def writeH5Cls : WCls := ⟨"WriteH5", some "hdf5"⟩

/-- The `WriteFrameCache` class: `fmt` is the string `frame-cache`. -/
def writeFrameCacheCls : WCls := ⟨"WriteFrameCache", some "frame-cache"⟩

/-- The module-level registry after the three class definitions run
(the `_RegisterWriter` metaclass registers each class at definition
time, in source order). -/
def moduleRegistry : List (Option String × WCls) :=
  registryRegister (registryRegister (registryRegister [] writerCls)
    writeH5Cls) writeFrameCacheCls

/-! ## Writer base class (`Writer.__init__`) -/

/-- State captured by `Writer.__init__`: the series reference and the
derived shape/dtype/frame-count/metadata snapshot, plus `fname` and the
option dict. -/
structure WriterState where
  ims : ImageSeries
  shape : Nat × Nat
  dtypeName : String
  itemsize : Nat
  nframes : Nat
  meta : List (String × MetaVal)
  fname : String
  opts : Opts
deriving DecidableEq, Repr

/-- Model of `Writer.__init__(ims, fname, **kwargs)`. -/
def writerInit (ims : ImageSeries) (fname : String) (opts : Opts) :
    WriterState :=
  { ims := ims
    shape := ims.shape
    dtypeName := ims.dtypeName
    itemsize := ims.itemsize
    nframes := ims.frames.length
    meta := ims.metadata
    fname := fname
    opts := opts }

/-! ## WriteH5 constructor -/

/-- A constructed `WriteH5` instance. -/
structure WriterH5 where
  base : WriterState
  path : OptVal
deriving DecidableEq, Repr

/-- Model of `WriteH5.__init__`: base init, then the access
`self._path = self._opts["path"]`
(a `KeyError` when the key is missing, raised at that first access). -/
def writeH5Init (ims : ImageSeries) (fname : String) (opts : Opts) :
    Except PyError WriterH5 :=
  let w := writerInit ims fname opts
  match lookupD w.opts "path" with
  | none => .error (.keyError "path")
  | some p => .ok { base := w, path := p }

/-! ## WriteFrameCache constructor -/

/-- A constructed `WriteFrameCache` instance. -/
structure WriterFrameCache where
  base : WriterState
  thresh : OptVal
  cache : OptVal
deriving DecidableEq, Repr

/-- Model of `WriteFrameCache.__init__`: base init, then
`self._thresh = self._opts["threshold"]` followed by
`self._cache = kwargs["cache_file"]`; each access raises `KeyError` when
its key is missing, in that order. -/
def frameCacheInit (ims : ImageSeries) (fname : String) (opts : Opts) :
    Except PyError WriterFrameCache :=
  let w := writerInit ims fname opts
  match lookupD w.opts "threshold" with
  | none => .error (.keyError "threshold")
  | some t =>
    match lookupD opts "cache_file" with
    | none => .error (.keyError "cache_file")
    | some c => .ok { base := w, thresh := t, cache := c }

/-! ## WriteH5.write: chunk geometry

Source (lines 86-94), with `s0, s1 = self._shape`:

    target_chunk_size = 50000
    bytes_per_pixel = np.dtype(self._dtype).itemsize
    nbytes_per_row = s1*bytes_per_pixel
    if nbytes_per_row < target_chunk_size:
        nrows_to_read = target_chunk_size/nbytes_per_row
        chunks = (1, min(nrows_to_read, s0), s1)
    else:
        ncols_to_read = int(target_chunk_size/float(nbytes_per_row) * s0)
        chunks = (1, 1, ncols_to_read)

The module is Python-2 code (`from __future__ import print_function`,
`__metaclass__`), so `/` on the `if` branch is integer floor division.
On the `else` branch `int(50000/float(n) * s0)` truncates the true
quotient times `s0`; for positive operands this is `50000 * s0 / n`
in exact arithmetic, which we use (the floating-point evaluation agrees
at every input considered in the theorems below). -/

def targetChunkSize : Nat := 50000

/-- The chunk triple computed by `WriteH5.write` from rows `s0`, cols
`s1` and the `itemsize` of the dtype. -/
def computeChunks (s0 s1 itemsize : Nat) : Nat × Nat × Nat :=
  let bytesPerPixel := itemsize
  let nbytesPerRow := s1 * bytesPerPixel
  if nbytesPerRow < targetChunkSize then
    (1, min (targetChunkSize / nbytesPerRow) s0, s1)
  else
    (1, 1, targetChunkSize * s0 / nbytesPerRow)

/-! ## WriteH5.write: dataset creation and frame copy

The write creates group `self._path`, a dataset `images` of shape
`(nframes, s0, s1)` with the computed chunks and gzip compression,
copies `ds[i, :, :] = self._ims[i]` for `i in range(nframes)`, and sets
one group attribute per metadata item.  The HDF5 side effects are
modelled as the group/dataset contents that the calls would produce;
the planes of the dataset start unset (modelled as empty frames) and are
filled by the loop. -/

structure H5Dataset where
  name : String
  shape : Nat × Nat × Nat
  dtypeName : String
  chunks : Nat × Nat × Nat
  compression : String
  planes : List Frame
deriving DecidableEq, Repr

structure H5Group where
  path : OptVal
  dataset : H5Dataset
  attrs : List (String × MetaVal)
deriving DecidableEq, Repr

/-- The frame-copy loop
`for i in range(self._nframes): ds[i, :, :] = self._ims[i]`, acting on
the list of planes of the dataset. -/
def copyFrames (ims : ImageSeries) (nframes : Nat) : List Frame :=
  (List.range nframes).foldl
    (fun ds i => ds.set i (ims.frames.getD i []))
    (List.replicate nframes [])

/-- Model of `WriteH5.write` as the group contents it creates. -/
def writeH5Output (w : WriterH5) : H5Group :=
  let s0 := w.base.shape.1
  let s1 := w.base.shape.2
  { path := w.path
    dataset :=
      { name := "images"
        shape := (w.base.nframes, s0, s1)
        dtypeName := w.base.dtypeName
        chunks := computeChunks s0 s1 w.base.itemsize
        compression := "gzip"
        planes := copyFrames w.base.ims w.base.nframes }
    attrs := w.base.meta.foldl (fun d kv => dictSet d kv.1 kv.2) [] }

/-! ## WriteFrameCache: sparse per-frame encoding

Source `_write_frames` body per frame:

    mask = frame > self._thresh
    row, col = mask.nonzero()
    arrd["%d_data" % i] = frame[mask]
    arrd["%d_row" % i] = row
    arrd["%d_col" % i] = col
    if sh is None:
        arrd["shape"] = np.array(frame.shape)

`frame > t` is the elementwise boolean mask; `mask.nonzero()` lists the
`True` positions in row-major order as parallel row/column index
arrays; `frame[mask]` lists the masked values in the same row-major
order. -/

/-- Elementwise `frame > t` for a numeric threshold. -/
def maskOf (frame : Frame) (t : Int) : List (List Bool) :=
  frame.map (fun row => row.map (fun v => t < v))

/-- Mask `frame > self._thresh` where the stored threshold is whatever was
passed in kwargs.  Python 2 compares any number as less than any
string, so against a string threshold every pixel masks to `False`. -/
def maskOfOpt (frame : Frame) : OptVal → List (List Bool)
  | .vi t => maskOf frame t
  | .vs _ => frame.map (fun row => row.map (fun _ => false))

/-- Column indices of the `True` entries of one mask row, counting from
`c0`. -/
def trueCols (c0 : Nat) : List Bool → List Nat
  | [] => []
  | b :: bs => if b then c0 :: trueCols (c0 + 1) bs else trueCols (c0 + 1) bs

/-- Row-major `(row, col)` positions of the `True` entries of a 2-D
mask, rows counting from `r0`. -/
def nonzero2d (r0 : Nat) : List (List Bool) → List (Nat × Nat)
  | [] => []
  | mrow :: mrows =>
      (trueCols 0 mrow).map (fun c => (r0, c)) ++ nonzero2d (r0 + 1) mrows

/-- Model of `mask.nonzero()`: the row-major list of `True` positions. -/
def nonzero (mask : List (List Bool)) : List (Nat × Nat) :=
  nonzero2d 0 mask

/-- One row of `frame[mask]`: the values at `True` positions. -/
def selectRow : List Int → List Bool → List Int
  | [], _ => []
  | _, [] => []
  | v :: vs, b :: bs =>
      if b then v :: selectRow vs bs else selectRow vs bs

/-- Model of `frame[mask]`: masked values in row-major order. -/
def maskSelect : Frame → List (List Bool) → List Int
  | [], _ => []
  | _, [] => []
  | row :: rows, mrow :: mrows => selectRow row mrow ++ maskSelect rows mrows

/-- Pixel access `frame[r][c]` as an optional value (`none` when out of
bounds). -/
def pixel? (frame : Frame) (r c : Nat) : Option Int :=
  (frame.get? r).bind (fun row => row.get? c)

/-- An entry stored in the `.npz` archive. -/
inductive ArchEntry where
  | ofInts : List Int → ArchEntry
  | ofNats : List Nat → ArchEntry
deriving DecidableEq, Repr

/-- Model of `np.array(frame.shape)` for a 2-D frame. -/
def frameShape (frame : Frame) : List Nat :=
  [frame.length, (frame.headD []).length]

/-- State of the `_write_frames` loop: the accumulating `arrd` dict and
the `sh` local.  `shapeWrites` instruments how many times the
`arrd["shape"] = ...` assignment executes (it is not part of the
source state). -/
structure FrameWriteState where
  arrd : List (String × ArchEntry)
  sh : Option (List Nat)
  shapeWrites : Nat
deriving DecidableEq, Repr

/-- One iteration of the `_write_frames` loop at frame index `i`.
Note the source never assigns to `sh` inside the loop, so `sh` is
carried through unchanged. -/
def writeFrameStep (thresh : OptVal) (frames : List Frame)
    (st : FrameWriteState) (i : Nat) : FrameWriteState :=
  let frame := frames.getD i []
  let mask := maskOfOpt frame thresh
  let row := (nonzero mask).map Prod.fst
  let col := (nonzero mask).map Prod.snd
  let arrd1 := dictSet st.arrd (toString i ++ "_data") (.ofInts (maskSelect frame mask))
  let arrd2 := dictSet arrd1 (toString i ++ "_row") (.ofNats row)
  let arrd3 := dictSet arrd2 (toString i ++ "_col") (.ofNats col)
  if st.sh = none then
    { arrd := dictSet arrd3 "shape" (.ofNats (frameShape frame))
      sh := st.sh
      shapeWrites := st.shapeWrites + 1 }
  else
    { st with arrd := arrd3 }

/-- The whole `_write_frames` loop (`sh = None` before it). -/
def writeFramesLoop (frames : List Frame) (thresh : OptVal) :
    FrameWriteState :=
  (List.range frames.length).foldl (writeFrameStep thresh frames)
    { arrd := [], sh := none, shapeWrites := 0 }

/-! ## WriteFrameCache: metadata processing and YAML descriptor -/

/-- One iteration of the `_process_meta` loop: an array value becomes a
`++np.array` sentinel string under the original key plus the `tolist()`
form under `key + "-array"`; any other value passes through under its key. -/
def processMetaStep (d : List (String × MetaOut)) (kv : String × MetaVal) :
    List (String × MetaOut) :=
  match kv.2 with
  | .arr a => dictSet (dictSet d kv.1 (.str "++np.array"))
      (kv.1 ++ "-array") (.list a)
  | .int n => dictSet d kv.1 (.int n)
  | .str s => dictSet d kv.1 (.str s)

/-- Model of `_process_meta`: fold the loop over the metadata items, starting
from the empty dict `d = {}`. -/
def processMeta (meta : List (String × MetaVal)) :
    List (String × MetaOut) :=
  meta.foldl processMetaStep []

/-- The YAML descriptor contents written by `_write_yml`. -/
structure YmlDoc where
  file : OptVal
  dtype : String
  nframes : Nat
  shape : List Nat
  meta : List (String × MetaOut)
deriving DecidableEq, Repr

/-- Model of `_write_yml`: the `data` block reads `file`, `dtype`, `nframes` and
`shape` from the cache path and the live series. -/
def writeYmlDoc (w : WriterFrameCache) : YmlDoc :=
  { file := w.cache
    dtype := w.base.ims.dtypeName
    nframes := w.base.ims.frames.length
    shape := [w.base.ims.shape.1, w.base.ims.shape.2]
    meta := processMeta w.base.meta }

/-! ## File effects and the dispatch entry point -/

/-- A file written by a writer, in write order. -/
inductive FileEffect where
  | h5file : String → H5Group → FileEffect
  | npzFile : OptVal → List (String × ArchEntry) → FileEffect
  | textFile : String → YmlDoc → FileEffect
deriving DecidableEq, Repr

/-- Model of `WriteH5.write` as its file effect. -/
def writeH5Run (w : WriterH5) : List FileEffect :=
  [.h5file w.base.fname (writeH5Output w)]

/-- Model of `WriteFrameCache.write`: `_write_frames` (the archive at
`self._cache`) then `_write_yml` (the descriptor at `self._fname`). -/
def frameCacheRun (w : WriterFrameCache) : List FileEffect :=
  [.npzFile w.cache (writeFramesLoop w.base.ims.frames w.thresh).arrd,
   .textFile w.base.fname (writeYmlDoc w)]

/-- Construct and run the writer class resolved from the registry.
`moduleRegistry` only ever resolves to the two concrete classes; any
other class value is unreachable from `write` below. -/
def runWriter (wcls : WCls) (ims : ImageSeries) (fname : String)
    (opts : Opts) : Except PyError (List FileEffect) :=
  if wcls = writeH5Cls then
    (writeH5Init ims fname opts).map writeH5Run
  else if wcls = writeFrameCacheCls then
    (frameCacheInit ims fname opts).map frameCacheRun
  else
    .error (.keyError wcls.name)

/-- The dispatch entry point `write(ims, fname, fmt, **kwargs)`:
registry lookup, then construction, then the write call.  An error
result carries no file effects: nothing is written and no writer is
constructed when the lookup itself fails. -/
def writeDispatch (ims : ImageSeries) (fname : String) (fmt : String)
    (opts : Opts) : Except PyError (List FileEffect) :=
  match getwriterE moduleRegistry fmt with
  | .error e => .error e
  | .ok wcls => runWriter wcls ims fname opts

/-! ## Concrete inputs used in witnesses -/

/-- An imageseries with no frames. -/
def exSeries : ImageSeries :=
  { frames := [], shape := (0, 0), dtypeName := "uint16", itemsize := 2,
    metadata := [] }

/-- An imageseries with two 1-by-1 frames. -/
def ex2Series : ImageSeries :=
  { frames := [[[5]], [[0]]], shape := (1, 1), dtypeName := "uint16",
    itemsize := 2, metadata := [] }

/-- A small imageseries with three 2-by-2 frames. -/
def ex3Series : ImageSeries :=
  { frames := [[[1, 2], [3, 4]], [[5, 6], [7, 8]], [[9, 10], [11, 12]]],
    shape := (2, 2), dtypeName := "uint16", itemsize := 2,
    metadata := [("note", .str "hi")] }

/-- A metadata mapping with one array entry and one scalar entry. -/
def exMeta : List (String × MetaVal) := [("a", .arr [1, 2, 3]), ("b", .int 7)]

/-! ## Dict lemmas -/

/-- Lookup after a Python-dict assignment. -/
theorem lookupD_dictSet {κ α : Type} [DecidableEq κ] (d : List (κ × α))
    (k : κ) (v : α) (k' : κ) :
    lookupD (dictSet d k v) k' = if k' = k then some v else lookupD d k' := by
  induction d with
  | nil =>
      simp only [dictSet, lookupD]
      by_cases h : k' = k
      · subst h; simp
      · rw [if_neg (fun hh => h hh.symm), if_neg h]
  | cons hd tl ih =>
      obtain ⟨k0, v0⟩ := hd
      by_cases h0 : k0 = k <;> by_cases h1 : k' = k <;> by_cases h2 : k0 = k'
      all_goals simp_all [dictSet, lookupD]

/-! ## C1: chunk geometry bounds (violated by the `else` branch) -/

/-- C1: the claim that the chunk row and column counts are always
between 1 and the corresponding dataset dimension is false.  At
rows = 10000, cols = 6250, itemsize = 8 (e.g. `float64`),
`nbytes_per_row = 50000` takes the `else` branch, whose formula
multiplies the quotient by `s0` (rows) rather than `s1` (cols) and
yields a chunk of (1, 1, 10000) with 10000 columns > 6250 columns. -/
theorem C1_chunk_cols_exceed_cols :
    computeChunks 10000 6250 8 = (1, 1, 10000) ∧ ¬(10000 ≤ 6250) := by
  exact ⟨by decide, by decide⟩

/-! ## C3: the `shape` assignment runs on every frame -/

/-- C3: the claim that `arrd["shape"]` is assigned only while processing
frame 0 is false: the loop-local `sh` is initialised to `None` and never
reassigned, so `if sh is None` succeeds on every iteration.  On a
2-frame series the instrumented assignment counter reaches 2 (and `sh`
is still `None` at the end). -/
theorem C3_shape_assigned_every_frame :
    (writeFramesLoop ex2Series.frames (.vi 1)).shapeWrites = 2 ∧
    (writeFramesLoop ex2Series.frames (.vi 1)).sh = none := by
  exact ⟨by decide, by decide⟩

/-! ## C4: chunk rows on the narrow-row branch -/

/-- C4: when `0 < bytes_per_row < 50000`, the computed chunk is
`(1, min(rows, floor(50000 / bytes_per_row)), cols)`. -/
theorem C4_chunk_rows_narrow (s0 s1 itemsize : Nat)
    (_hpos : 0 < s1 * itemsize) (hlt : s1 * itemsize < 50000) :
    computeChunks s0 s1 itemsize = (1, min s0 (50000 / (s1 * itemsize)), s1) := by
  simp only [computeChunks, targetChunkSize]
  rw [if_pos hlt, Nat.min_comm]

/-- Witness for C4 at rows = 100, cols = 10, itemsize = 2. -/
theorem C4_chunk_rows_narrow_witness :
    0 < 10 * 2 ∧ 10 * 2 < 50000 ∧
      computeChunks 100 10 2 = (1, min 100 (50000 / (10 * 2)), 10) :=
  ⟨by decide, by decide, C4_chunk_rows_narrow 100 10 2 (by decide) (by decide)⟩

/-! ## C7: unknown format fails before any file effect -/

/-- C7: dispatching with a format name that is not in the registry
returns the `KeyError` (a `LookupError`) from the registry lookup; the
error result carries no file effects and no writer construction
happened. -/
theorem C7_unknown_format (ims : ImageSeries) (fname : String)
    (fmt : String) (opts : Opts)
    (h : lookupD moduleRegistry (some fmt) = none) :
    writeDispatch ims fname fmt opts = .error (.keyError fmt) := by
  simp [writeDispatch, getwriterE, h]

/-- Witness for C7 at the unregistered format name `tiff`. -/
theorem C7_unknown_format_witness :
    lookupD moduleRegistry (some "tiff") = none ∧
      writeDispatch exSeries "f.h5" "tiff" [] = .error (.keyError "tiff") :=
  ⟨by decide, C7_unknown_format exSeries "f.h5" "tiff" [] (by decide)⟩

/-! ## C8: missing required option keys -/

/-- C8: each writer constructor fails with a `KeyError` naming the first
required option key it accesses and finds missing: `path` for
`WriteH5`; `threshold` then `cache_file` for `WriteFrameCache`. -/
theorem C8_missing_option :
    (∀ (ims : ImageSeries) (fname : String) (opts : Opts),
        lookupD opts "path" = none →
        writeH5Init ims fname opts = .error (.keyError "path")) ∧
    (∀ (ims : ImageSeries) (fname : String) (opts : Opts),
        lookupD opts "threshold" = none →
        frameCacheInit ims fname opts = .error (.keyError "threshold")) ∧
    (∀ (ims : ImageSeries) (fname : String) (opts : Opts) (t : OptVal),
        lookupD opts "threshold" = some t →
        lookupD opts "cache_file" = none →
        frameCacheInit ims fname opts = .error (.keyError "cache_file")) := by
  refine ⟨?_, ?_, ?_⟩
  · intro ims fname opts h
    simp [writeH5Init, writerInit, h]
  · intro ims fname opts h
    simp [frameCacheInit, writerInit, h]
  · intro ims fname opts t ht hc
    simp [frameCacheInit, writerInit, ht, hc]

/-- Witness for C8 on concrete option dicts. -/
theorem C8_missing_option_witness :
    writeH5Init exSeries "f" [] = .error (.keyError "path") ∧
    frameCacheInit exSeries "f" [] = .error (.keyError "threshold") ∧
    frameCacheInit exSeries "f" [("threshold", .vi 5)] =
      .error (.keyError "cache_file") :=
  ⟨C8_missing_option.1 exSeries "f" [] (by decide),
   C8_missing_option.2.1 exSeries "f" [] (by decide),
   C8_missing_option.2.2 exSeries "f" [("threshold", .vi 5)] (.vi 5)
     (by decide) (by decide)⟩

/-! ## C9: last registration wins; the base class is never registered -/

/-- C9: registering two classes (neither named `Writer`) that declare
the same format identifier leaves the registry resolving that
identifier to the second class, so the first is no longer reachable by
that name; and registering a class named `Writer` leaves the registry
unchanged. -/
theorem C9_registry_last_write_wins :
    (∀ (reg : List (Option String × WCls)) (w1 w2 : WCls) (f : String),
        w1.name ≠ "Writer" → w2.name ≠ "Writer" →
        w1.fmt = some f → w2.fmt = some f →
        lookupD (registryRegister (registryRegister reg w1) w2) (some f)
            = some w2 ∧
        (w2 ≠ w1 →
          lookupD (registryRegister (registryRegister reg w1) w2) (some f)
              ≠ some w1)) ∧
    (∀ (reg : List (Option String × WCls)) (w : WCls),
        w.name = "Writer" → registryRegister reg w = reg) := by
  constructor
  · intro reg w1 w2 f h1 h2 hf1 hf2
    have hres : lookupD (registryRegister (registryRegister reg w1) w2)
        (some f) = some w2 := by
      simp [registryRegister, h1, h2, hf1, hf2, lookupD_dictSet]
    refine ⟨hres, fun hne hcontra => hne ?_⟩
    rw [hres] at hcontra
    exact (Option.some.injEq _ _ ▸ hcontra)
  · intro reg w h
    simp [registryRegister, h]

/-- Witness for C9: two fresh classes both declaring format `tiff`,
and re-registering the base `Writer` class on the module registry. -/
theorem C9_registry_last_write_wins_witness :
    lookupD (registryRegister (registryRegister []
        ⟨"WriteA", some "tiff"⟩) ⟨"WriteB", some "tiff"⟩) (some "tiff")
      = some ⟨"WriteB", some "tiff"⟩ ∧
    registryRegister moduleRegistry writerCls = moduleRegistry :=
  ⟨(C9_registry_last_write_wins.1 [] ⟨"WriteA", some "tiff"⟩
      ⟨"WriteB", some "tiff"⟩ "tiff" (by decide) (by decide) rfl rfl).1,
   C9_registry_last_write_wins.2 moduleRegistry writerCls rfl⟩

/-! ## C10: zero frames -/

/-- C10: on a series with no frames the frame loop never runs, so the
archive dict is empty (in particular it has no `shape` key), while the
YAML descriptor still reports `nframes = 0`. -/
theorem C10_zero_frames (ims : ImageSeries) (fname : String) (opts : Opts)
    (th cv : OptVal) (h : ims.frames = []) :
    (writeFramesLoop ims.frames th).arrd = [] ∧
    lookupD (writeFramesLoop ims.frames th).arrd "shape" = none ∧
    (writeYmlDoc { base := writerInit ims fname opts, thresh := th,
                   cache := cv }).nframes = 0 := by
  rw [h]
  refine ⟨rfl, rfl, ?_⟩
  simp [writeYmlDoc, writerInit, h]

/-- Witness for C10 on the empty example series. -/
theorem C10_zero_frames_witness :
    exSeries.frames = [] ∧
    ((writeFramesLoop exSeries.frames (.vi 5)).arrd = [] ∧
     lookupD (writeFramesLoop exSeries.frames (.vi 5)).arrd "shape" = none ∧
     (writeYmlDoc { base := writerInit exSeries "f.yml"
                      [("threshold", .vi 5), ("cache_file", .vs "c.npz")],
                    thresh := .vi 5, cache := .vs "c.npz" }).nframes = 0) :=
  ⟨rfl, C10_zero_frames exSeries "f.yml"
      [("threshold", .vi 5), ("cache_file", .vs "c.npz")]
      (.vi 5) (.vs "c.npz") rfl⟩

/-! ## C5: the dense dataset and the frame-copy loop -/

/-- Folding index-wise `set` over a list of indices keeps the length. -/
theorem length_foldl_set (f : Nat → Frame) (idxs : List Nat) :
    ∀ (init : List Frame),
      (idxs.foldl (fun ds i => ds.set i (f i)) init).length = init.length := by
  induction idxs with
  | nil => intro init; rfl
  | cons i is ih =>
      intro init
      rw [List.foldl_cons, ih, List.length_set]

/-- After the copy loop over `range n`, every position below `n` holds
the frame written for it. -/
theorem get?_foldl_set_range (f : Nat → Frame) :
    ∀ (n : Nat) (init : List Frame), n ≤ init.length → ∀ j, j < n →
      ((List.range n).foldl (fun ds i => ds.set i (f i)) init).get? j
        = some (f j) := by
  intro n
  induction n with
  | zero => intro init _ j hj; omega
  | succ m ih =>
      intro init hlen j hj
      rw [List.range_succ, List.foldl_append, List.foldl_cons, List.foldl_nil]
      rcases Nat.lt_succ_iff_lt_or_eq.mp hj with h | h
      · rw [List.get?_set_ne _ _ (by omega)]
        exact ih init (by omega) j h
      · subst h
        apply List.get?_set_eq_of_lt
        rw [length_foldl_set]
        omega

/-- The copy loop reproduces the frames of the series exactly. -/
theorem copyFrames_eq (ims : ImageSeries) :
    copyFrames ims ims.frames.length = ims.frames := by
  apply List.ext_get?
  intro j
  by_cases hj : j < ims.frames.length
  · rw [copyFrames, get?_foldl_set_range _ _ _ (by simp) j hj,
      List.get?_eq_get hj, List.getD_eq_get?, List.get?_eq_get hj]
    rfl
  · have h1 : (copyFrames ims ims.frames.length).length = ims.frames.length := by
      rw [copyFrames, length_foldl_set, List.length_replicate]
    have h2 : (copyFrames ims ims.frames.length).get? j = none :=
      List.get?_len_le (by rw [h1]; omega)
    have h3 : ims.frames.get? j = none := List.get?_len_le (by omega)
    rw [h2, h3]

/-- C5: `WriteH5.write` creates a dataset named `images` of shape
`(nframes, rows, cols)` with the dtype of the series, and the frame loop
copies each series frame into the plane at the same index, so the
planes equal the frames of the series. -/
theorem C5_h5_dataset (ims : ImageSeries) (fname : String) (opts : Opts)
    (pathv : OptVal) :
    (writeH5Output { base := writerInit ims fname opts, path := pathv
        }).dataset.name = "images" ∧
    (writeH5Output { base := writerInit ims fname opts, path := pathv
        }).dataset.shape = (ims.frames.length, ims.shape.1, ims.shape.2) ∧
    (writeH5Output { base := writerInit ims fname opts, path := pathv
        }).dataset.dtypeName = ims.dtypeName ∧
    (writeH5Output { base := writerInit ims fname opts, path := pathv
        }).dataset.planes = ims.frames :=
  ⟨rfl, rfl, rfl, copyFrames_eq ims⟩

/-! ## C2: the sparse per-frame encoding -/

/-- Membership in `trueCols`: exactly the offsets of `true` entries. -/
theorem mem_trueCols (bs : List Bool) :
    ∀ (c0 c : Nat), c ∈ trueCols c0 bs ↔
      ∃ j, bs.get? j = some true ∧ c = c0 + j := by
  induction bs with
  | nil =>
      intro c0 c
      simp [trueCols]
  | cons b bs ih =>
      intro c0 c
      constructor
      · intro hmem
        cases b with
        | true =>
            rcases List.mem_cons.mp (by simpa [trueCols] using hmem) with h | h
            · exact ⟨0, by simp, by omega⟩
            · rcases (ih (c0 + 1) c).mp h with ⟨j, hj, hc⟩
              exact ⟨j + 1, by simpa using hj, by omega⟩
        | false =>
            rcases (ih (c0 + 1) c).mp (by simpa [trueCols] using hmem) with
              ⟨j, hj, hc⟩
            exact ⟨j + 1, by simpa using hj, by omega⟩
      · rintro ⟨j, hj, hc⟩
        cases j with
        | zero =>
            have hb : b = true := by simpa using hj
            subst hb
            have hcc : c = c0 := by omega
            subst hcc
            simp [trueCols]
        | succ j' =>
            have hj' : bs.get? j' = some true := by simpa using hj
            have hrec : c ∈ trueCols (c0 + 1) bs :=
              (ih (c0 + 1) c).mpr ⟨j', hj', by omega⟩
            cases b <;> simp [trueCols, hrec]

/-- Every column produced from offset `c0` is at least `c0`. -/
theorem trueCols_ge (bs : List Bool) :
    ∀ (c0 c : Nat), c ∈ trueCols c0 bs → c0 ≤ c := by
  intro c0 c h
  rcases (mem_trueCols bs c0 c).mp h with ⟨j, _, hc⟩
  omega

/-- The column list of one mask row has no duplicates. -/
theorem trueCols_nodup (bs : List Bool) :
    ∀ (c0 : Nat), (trueCols c0 bs).Nodup := by
  induction bs with
  | nil => intro c0; simp [trueCols]
  | cons b bs ih =>
      intro c0
      cases b with
      | false => simpa [trueCols] using ih (c0 + 1)
      | true =>
          rw [show trueCols c0 (true :: bs) = c0 :: trueCols (c0 + 1) bs
            from by simp [trueCols]]
          refine List.nodup_cons.mpr ⟨?_, ih (c0 + 1)⟩
          intro hmem
          have := trueCols_ge bs (c0 + 1) c0 hmem
          omega

/-- Membership in `nonzero2d`. -/
theorem mem_nonzero2d (mask : List (List Bool)) :
    ∀ (r0 r c : Nat), (r, c) ∈ nonzero2d r0 mask ↔
      ∃ i mrow, mask.get? i = some mrow ∧ r = r0 + i ∧
        c ∈ trueCols 0 mrow := by
  induction mask with
  | nil => intro r0 r c; simp [nonzero2d]
  | cons mrow mrows ih =>
      intro r0 r c
      simp only [nonzero2d, List.mem_append, List.mem_map]
      constructor
      · rintro (⟨c', hc', heq⟩ | h)
        · injection heq with h1 h2
          exact ⟨0, mrow, by simp, by omega, by rwa [h2] at hc'⟩
        · rcases (ih (r0 + 1) r c).mp h with ⟨i, mrow', hget, hr, hc⟩
          exact ⟨i + 1, mrow', by simpa using hget, by omega, hc⟩
      · rintro ⟨i, mrow', hget, hr, hc⟩
        cases i with
        | zero =>
            have h1 : mrow = mrow' := by simpa using hget
            subst h1
            subst hr
            exact Or.inl ⟨c, hc, by simp⟩
        | succ i' =>
            exact Or.inr ((ih (r0 + 1) r c).mpr
              ⟨i', mrow', by simpa using hget, by omega, hc⟩)

/-- Every position produced from row offset `r0` has first component at
least `r0`. -/
theorem nonzero2d_fst_ge (mask : List (List Bool)) :
    ∀ (r0 : Nat) (p : Nat × Nat), p ∈ nonzero2d r0 mask → r0 ≤ p.1 := by
  intro r0 p hp
  obtain ⟨r, c⟩ := p
  rcases (mem_nonzero2d mask r0 r c).mp hp with ⟨i, mrow, _, hr, _⟩
  show r0 ≤ r
  omega

/-- The row-major position list of a mask has no duplicates. -/
theorem nonzero2d_nodup (mask : List (List Bool)) :
    ∀ (r0 : Nat), (nonzero2d r0 mask).Nodup := by
  induction mask with
  | nil => intro r0; simp [nonzero2d]
  | cons mrow mrows ih =>
      intro r0
      simp only [nonzero2d]
      apply List.Nodup.append
      · exact List.Nodup.map (fun a b hab => congrArg Prod.snd hab)
          (trueCols_nodup mrow 0)
      · exact ih (r0 + 1)
      · intro p hp1 hp2
        rcases List.mem_map.mp hp1 with ⟨c, _, hc⟩
        have hge := nonzero2d_fst_ge mrows (r0 + 1) p hp2
        rw [← hc] at hge
        simp at hge

/-- The `nonzero` positions of `frame > t` are exactly the in-bounds
pixels strictly above the threshold. -/
theorem mem_nonzero_maskOf (frame : Frame) (t : Int) (r c : Nat) :
    (r, c) ∈ nonzero (maskOf frame t) ↔
      ∃ v, pixel? frame r c = some v ∧ t < v := by
  rw [nonzero, mem_nonzero2d]
  constructor
  · rintro ⟨i, mrow, hget, hr, hc⟩
    have hr' : r = i := by omega
    subst hr'
    rw [maskOf, List.get?_map] at hget
    cases hrow : frame.get? r with
    | none => rw [hrow] at hget; cases hget
    | some row =>
        rw [hrow] at hget
        have hmrow : row.map (fun v => decide (t < v)) = mrow := by
          simpa using hget
        subst hmrow
        rcases (mem_trueCols _ 0 c).mp hc with ⟨j, hj, hcj⟩
        have hc' : c = j := by omega
        subst hc'
        rw [List.get?_map] at hj
        cases hv : row.get? c with
        | none => rw [hv] at hj; cases hj
        | some v =>
            rw [hv] at hj
            have htv : t < v := by
              have hd : decide (t < v) = true := by simpa using hj
              exact of_decide_eq_true hd
            refine ⟨v, ?_, htv⟩
            simp only [pixel?]
            rw [hrow]
            simpa using hv
  · rintro ⟨v, hpix, htv⟩
    simp only [pixel?] at hpix
    cases hrow : frame.get? r with
    | none => rw [hrow] at hpix; cases hpix
    | some row =>
        rw [hrow] at hpix
        simp only [Option.some_bind] at hpix
        refine ⟨r, row.map (fun v => decide (t < v)), ?_, by omega, ?_⟩
        · rw [maskOf, List.get?_map, hrow]
          rfl
        · refine (mem_trueCols _ 0 c).mpr ⟨c, ?_, by omega⟩
          rw [List.get?_map, hpix]
          simp [htv]

/-- Row-wise, `frame[mask]` and `mask.nonzero()` have the same length. -/
theorem selectRow_length (row : List Int) (p : Int → Bool) :
    ∀ (c0 : Nat),
      (selectRow row (row.map p)).length = (trueCols c0 (row.map p)).length := by
  induction row with
  | nil => intro c0; rfl
  | cons v vs ih =>
      intro c0
      simp only [List.map_cons, selectRow, trueCols]
      cases hp : p v <;> simp [ih (c0 + 1)]

/-- Whole-frame version: `frame[mask]` and the position list have the
same length. -/
theorem maskSelect_length (frame : Frame) (t : Int) :
    ∀ (r0 : Nat), (maskSelect frame (maskOf frame t)).length
        = (nonzero2d r0 (maskOf frame t)).length := by
  induction frame with
  | nil => intro r0; rfl
  | cons row rows ih =>
      intro r0
      simp only [maskOf] at ih ⊢
      simp only [List.map_cons, maskSelect, nonzero2d, List.length_append,
        List.length_map]
      rw [selectRow_length row _ 0]
      have h := ih (r0 + 1)
      omega

/-- Zipping the two projection maps of a pair list recovers the list. -/
theorem zip_map_fst_snd_self {α β : Type} (l : List (α × β)) :
    (l.map Prod.fst).zip (l.map Prod.snd) = l := by
  induction l with
  | nil => rfl
  | cons p l ih => simp [ih]

/-- C2: for every frame and threshold the row-index, column-index and
value sequences have equal lengths; every listed `(r, c)` pair is an
in-bounds pixel strictly above the threshold; and the pair list has no
duplicates and contains exactly the above-threshold positions, so each
appears exactly once. -/
theorem C2_sparse_encoding (frame : Frame) (t : Int) :
    ((nonzero (maskOf frame t)).map Prod.fst).length
        = ((nonzero (maskOf frame t)).map Prod.snd).length ∧
    ((nonzero (maskOf frame t)).map Prod.snd).length
        = (maskSelect frame (maskOf frame t)).length ∧
    (((nonzero (maskOf frame t)).map Prod.fst).zip
        ((nonzero (maskOf frame t)).map Prod.snd)).Nodup ∧
    (∀ r c : Nat,
      (r, c) ∈ ((nonzero (maskOf frame t)).map Prod.fst).zip
          ((nonzero (maskOf frame t)).map Prod.snd) ↔
        ∃ v, pixel? frame r c = some v ∧ t < v) := by
  rw [zip_map_fst_snd_self]
  refine ⟨by simp, ?_, nonzero2d_nodup _ 0,
    fun r c => mem_nonzero_maskOf frame t r c⟩
  simp only [List.length_map, nonzero]
  rw [← maskSelect_length frame t 0]

/-! ## C6: metadata processing -/

/-- A string is never equal to itself extended by `-array`. -/
theorem ne_self_append_array (s : String) : s ≠ s ++ "-array" := by
  intro h
  have hlen := congrArg String.length h
  rw [String.length_append] at hlen
  have h6 : ("-array" : String).length = 6 := rfl
  omega

/-- Appending on the right is cancellable for strings. -/
theorem string_append_cancel_right {s t u : String} (h : s ++ u = t ++ u) :
    s = t := by
  apply String.ext
  have hd := congrArg String.data h
  rw [String.data_append, String.data_append] at hd
  exact List.append_cancel_right hd

/-- A key not written by any remaining metadata item keeps its lookup
across the rest of the `_process_meta` fold. -/
theorem lookupD_foldl_processMetaStep (meta : List (String × MetaVal)) :
    ∀ (d : List (String × MetaOut)) (k : String),
      (∀ kv ∈ meta, kv.1 ≠ k ∧ kv.1 ++ "-array" ≠ k) →
      lookupD (meta.foldl processMetaStep d) k = lookupD d k := by
  induction meta with
  | nil => intro d k _; rfl
  | cons kv rest ih =>
      intro d k h
      rw [List.foldl_cons,
        ih (processMetaStep d kv) k
          (fun kv' h' => h kv' (List.mem_cons_of_mem _ h'))]
      obtain ⟨h1, h2⟩ := h kv (List.mem_cons_self _ _)
      obtain ⟨k1, v1⟩ := kv
      cases v1 with
      | arr a =>
          simp only [processMetaStep, lookupD_dictSet]
          rw [if_neg (fun hh => h2 hh.symm), if_neg (fun hh => h1 hh.symm)]
      | int n =>
          simp only [processMetaStep, lookupD_dictSet]
          rw [if_neg (fun hh => h1 hh.symm)]
      | str s =>
          simp only [processMetaStep, lookupD_dictSet]
          rw [if_neg (fun hh => h1 hh.symm)]

/-- Where each metadata item ends up after folding the `_process_meta`
loop from an arbitrary starting dict, provided the metadata keys are
distinct and no key equals another key extended by `-array`. -/
theorem processMeta_lookup_aux (meta : List (String × MetaVal)) :
    ∀ (d : List (String × MetaOut)),
      (meta.map Prod.fst).Nodup →
      (∀ k ∈ meta.map Prod.fst, ∀ k' ∈ meta.map Prod.fst,
        k ≠ k' ++ "-array") →
      ∀ kv ∈ meta,
        (∀ a, kv.2 = .arr a →
          lookupD (meta.foldl processMetaStep d) kv.1
              = some (.str "++np.array") ∧
          lookupD (meta.foldl processMetaStep d) (kv.1 ++ "-array")
              = some (.list a)) ∧
        (∀ n, kv.2 = .int n →
          lookupD (meta.foldl processMetaStep d) kv.1 = some (.int n)) ∧
        (∀ s, kv.2 = .str s →
          lookupD (meta.foldl processMetaStep d) kv.1 = some (.str s)) := by
  induction meta with
  | nil => intro d _ _ kv hkv; exact absurd hkv (List.not_mem_nil kv)
  | cons kv0 rest ih =>
      intro d hnd hna kv hkv
      rw [List.map_cons, List.nodup_cons] at hnd
      obtain ⟨hnd0, hndr⟩ := hnd
      have hnar : ∀ k ∈ rest.map Prod.fst, ∀ k' ∈ rest.map Prod.fst,
          k ≠ k' ++ "-array" := by
        intro k hk k' hk'
        exact hna k (by rw [List.map_cons]; exact List.mem_cons_of_mem _ hk)
          k' (by rw [List.map_cons]; exact List.mem_cons_of_mem _ hk')
      rcases List.mem_cons.mp hkv with heq | hmem
      · subst heq
        obtain ⟨k1, v1⟩ := kv
        have hu1 : ∀ kv' ∈ rest, kv'.1 ≠ k1 ∧ kv'.1 ++ "-array" ≠ k1 := by
          intro kv' h'
          constructor
          · intro hh
            have hm : kv'.1 ∈ rest.map Prod.fst :=
              List.mem_map_of_mem Prod.fst h'
            rw [hh] at hm
            exact hnd0 hm
          · intro hh
            exact hna k1 (by rw [List.map_cons]; exact List.mem_cons_self _ _)
              kv'.1
              (by rw [List.map_cons]
                  exact List.mem_cons_of_mem _ (List.mem_map_of_mem Prod.fst h'))
              hh.symm
        refine ⟨?_, ?_, ?_⟩
        · intro a ha
          have hu2 : ∀ kv' ∈ rest, kv'.1 ≠ k1 ++ "-array" ∧
              kv'.1 ++ "-array" ≠ k1 ++ "-array" := by
            intro kv' h'
            constructor
            · exact hna kv'.1
                (by rw [List.map_cons]
                    exact List.mem_cons_of_mem _ (List.mem_map_of_mem Prod.fst h'))
                k1 (by rw [List.map_cons]; exact List.mem_cons_self _ _)
            · intro hh
              have heq1 : kv'.1 = k1 := string_append_cancel_right hh
              have hm : kv'.1 ∈ rest.map Prod.fst :=
                List.mem_map_of_mem Prod.fst h'
              rw [heq1] at hm
              exact hnd0 hm
          rw [List.foldl_cons,
            lookupD_foldl_processMetaStep rest _ _ hu1,
            lookupD_foldl_processMetaStep rest _ _ hu2]
          have ha2 : v1 = .arr a := ha
          subst ha2
          refine ⟨?_, ?_⟩ <;>
            simp [processMetaStep, lookupD_dictSet, ne_self_append_array k1]
        · intro n hn
          have hn2 : v1 = .int n := hn
          subst hn2
          rw [List.foldl_cons, lookupD_foldl_processMetaStep rest _ _ hu1]
          simp [processMetaStep, lookupD_dictSet]
        · intro s hs
          have hs2 : v1 = .str s := hs
          subst hs2
          rw [List.foldl_cons, lookupD_foldl_processMetaStep rest _ _ hu1]
          simp [processMetaStep, lookupD_dictSet]
      · have := ih (processMetaStep d kv0) hndr hnar kv hmem
        rw [List.foldl_cons]
        exact this

/-- C6: under distinct metadata keys (with no key equal to another key
extended by `-array`), `_process_meta` maps every array-valued entry
`k -> a` to the sentinel string `++np.array` under `k` and the list form
of `a` under `k + "-array"`, and passes every non-array entry through
unchanged under its own key. -/
theorem C6_process_meta (meta : List (String × MetaVal))
    (hnd : (meta.map Prod.fst).Nodup)
    (hna : ∀ k ∈ meta.map Prod.fst, ∀ k' ∈ meta.map Prod.fst,
      k ≠ k' ++ "-array") :
    ∀ kv ∈ meta,
      (∀ a, kv.2 = .arr a →
        lookupD (processMeta meta) kv.1 = some (.str "++np.array") ∧
        lookupD (processMeta meta) (kv.1 ++ "-array") = some (.list a)) ∧
      (∀ n, kv.2 = .int n →
        lookupD (processMeta meta) kv.1 = some (.int n)) ∧
      (∀ s, kv.2 = .str s →
        lookupD (processMeta meta) kv.1 = some (.str s)) :=
  processMeta_lookup_aux meta [] hnd hna

/-- Witness for C6 on a metadata dict with one array entry and one
scalar entry. -/
theorem C6_process_meta_witness :
    lookupD (processMeta exMeta) "a" = some (.str "++np.array") ∧
    lookupD (processMeta exMeta) ("a" ++ "-array") = some (.list [1, 2, 3]) ∧
    lookupD (processMeta exMeta) "b" = some (.int 7) :=
  ⟨((C6_process_meta exMeta (by decide) (by decide) ("a", .arr [1, 2, 3])
      (by decide)).1 [1, 2, 3] rfl).1,
   ((C6_process_meta exMeta (by decide) (by decide) ("a", .arr [1, 2, 3])
      (by decide)).1 [1, 2, 3] rfl).2,
   (C6_process_meta exMeta (by decide) (by decide) ("b", .int 7)
      (by decide)).2.1 7 rfl⟩

end HexrdSave
